import Mathlib

/-!
Shallow embedding of the `charinfo` tool (src/main.rs and src/options.rs).

Characters are modelled as their Unicode scalar values (`Nat`).  External
collaborators (the `unicode_width` crate's width lookup and the
`unicode_names` lookup) are parameters of the embedding.  The observable
behaviour of the stream driver `CharInfo::run` is modelled as a list of
output events (styling requests, record lines, error lines).
-/

namespace Charinfo

/-- A Unicode scalar value: any codepoint except the surrogate range. -/
def ValidScalar (c : Nat) : Prop :=
  c < 0x110000 ∧ ¬(0xD800 ≤ c ∧ c ≤ 0xDFFF)

instance (c : Nat) : Decidable (ValidScalar c) := by
  unfold ValidScalar; infer_instance

/-- Rust `char::is_control`: the Unicode `Cc` general category, i.e. the C0
range `U+0000..U+001F` together with `U+007F..U+009F` (DEL and the C1 range). -/
def is_control (c : Nat) : Bool :=
  c ≤ 0x1F || (0x7F ≤ c && c ≤ 0x9F)

/-- `CharType` from src/main.rs. -/
inductive CharType where
  | Normal
  | Combining
  | Control
deriving DecidableEq

/-- `CharType::of` from src/main.rs: control characters first, then the
combining range `[0x300, 0x370)`, otherwise normal. -/
def CharType.of (c : Nat) : CharType :=
  if is_control c then CharType.Control
  else if 0x300 ≤ c ∧ c < 0x370 then CharType.Combining
  else CharType.Normal

/-- Rust `char::len_utf8`: the length in bytes of the UTF-8 encoding. -/
def len_utf8 (c : Nat) : Nat :=
  if c < 0x80 then 1
  else if c < 0x800 then 2
  else if c < 0x10000 then 3
  else 4

/-- Rust `char::encode_utf8`: the canonical UTF-8 byte sequence of a scalar
value (bit shifts and masks written as division and remainder by powers of 2). -/
def utf8Encode (c : Nat) : List Nat :=
  if c < 0x80 then [c]
  else if c < 0x800 then
    [0xC0 + c / 0x40, 0x80 + c % 0x40]
  else if c < 0x10000 then
    [0xE0 + c / 0x1000, 0x80 + c / 0x40 % 0x40, 0x80 + c % 0x40]
  else
    [0xF0 + c / 0x40000, 0x80 + c / 0x1000 % 0x40, 0x80 + c / 0x40 % 0x40,
     0x80 + c % 0x40]

/-- Lowercase hex digit for a value below 16, as the `x` format does. -/
def hexDigitChar (n : Nat) : Char :=
  if n < 10 then Char.ofNat (48 + n) else Char.ofNat (87 + n)

/-- The two zero-padded lowercase hex digits of one byte (`{:0>2x}`). -/
def hexByteChars (b : Nat) : List Char :=
  [hexDigitChar (b / 16), hexDigitChar (b % 16)]

/-- Hex pairs of the bytes, separated by single spaces: the first byte is
written bare, each later byte is preceded by one space. -/
def hexJoin : List Nat → List Char
  | [] => []
  | b :: bs => hexByteChars b ++ (bs.map (fun x => ' ' :: hexByteChars x)).flatten

/-- `NumDisplay`'s `fmt` from src/main.rs: encode the character as UTF-8 and
print each byte as two lowercase hex digits, space-separated. -/
def render_bytes (c : Nat) : String :=
  String.mk (hexJoin (utf8Encode c))

/-- The single-character string `"{}"` printed for a char. -/
def charStr (c : Nat) : String :=
  String.singleton (Char.ofNat c)

/-- `CharDisplay`'s `fmt` from src/main.rs, parameterised by the external
`UnicodeWidthChar::width` lookup `w`. -/
def render_glyph (w : Nat → Option Nat) (c : Nat) : String :=
  if c ≤ 9 then " #" ++ Nat.repr c ++ " "
  else if c ≤ 31 then " #" ++ Nat.repr c
  else if 0x300 ≤ c ∧ c < 0x370 then " ' " ++ charStr c ++ "'"
  else if w c = some 1 then " '" ++ charStr c ++ "'"
  else "'" ++ charStr c ++ "'"

/-- Value of one lowercase hex digit, the reader used to state the
`render_bytes` round-trip property. -/
def hexVal (ch : Char) : Option Nat :=
  if 48 ≤ ch.toNat ∧ ch.toNat ≤ 57 then some (ch.toNat - 48)
  else if 97 ≤ ch.toNat ∧ ch.toNat ≤ 102 then some (ch.toNat - 87)
  else none

/-- Parse a non-empty sequence of two-digit lowercase hex pairs separated by
single spaces back into the byte list, the inverse direction of the
round-trip property. -/
def parseHexPairs : List Char → Option (List Nat)
  | h1 :: h2 :: rest =>
    match hexVal h1, hexVal h2 with
    | some hi, some lo =>
      match rest with
      | [] => some [16 * hi + lo]
      | ' ' :: rest2 => (parseHexPairs rest2).map (fun bs => (16 * hi + lo) :: bs)
      | _ => none
    | _, _ => none
  | _ => none

/-- Is the byte a UTF-8 continuation byte. -/
def isCont (b : Nat) : Bool :=
  0x80 ≤ b && b < 0xC0

/-- Strict UTF-8 decoding of a byte list holding exactly one character,
rejecting overlong forms, surrogates and out-of-range values: the other
inverse direction of the round-trip property. -/
def utf8Decode : List Nat → Option Nat
  | [a] => if a < 0x80 then some a else none
  | [a, b] =>
    if 0xC2 ≤ a && a ≤ 0xDF && isCont b then
      some ((a - 0xC0) * 0x40 + (b - 0x80))
    else none
  | [a, b, c] =>
    if 0xE0 ≤ a && a ≤ 0xEF && isCont b && isCont c then
      let v := (a - 0xE0) * 0x1000 + (b - 0x80) * 0x40 + (c - 0x80)
      if 0x800 ≤ v && !(0xD800 ≤ v && v ≤ 0xDFFF) then some v else none
    else none
  | [a, b, c, d] =>
    if 0xF0 ≤ a && a ≤ 0xF4 && isCont b && isCont c && isCont d then
      let v := (a - 0xF0) * 0x40000 + (b - 0x80) * 0x1000 +
        (c - 0x80) * 0x40 + (d - 0x80)
      if 0x10000 ≤ v && v < 0x110000 then some v else none
    else none
  | _ => none

/-- `Options` from src/main.rs (the flags the stream driver consults). -/
structure Options where
  bytes : Bool
  show_names : Bool
deriving DecidableEq

/-- The two foreground colors the driver ever requests from the `term` crate. -/
inductive Color where
  | green
  | magenta
deriving DecidableEq

/-- One observable output action of `CharInfo::run`: a styling request to the
terminal collaborator, a reset request, one printed record line (its ordinal,
character, glyph field, byte-hex field and optional name suffix), or one
printed error line. -/
inductive Event where
  | fg (color : Color)
  | reset
  | record (ordinal : Nat) (c : Nat) (glyph : String) (bytes : String)
      (name : Option String)
  | error (line : String)
deriving DecidableEq

/-- The counter increment after one decoded character: `len_utf8` in byte
mode, else 1. -/
def inc (opts : Options) (c : Nat) : Nat :=
  if opts.bytes then len_utf8 c else 1

/-- The events emitted for one successfully decoded character `c` at counter
value `count`, in source order: an optional foreground request (green for
control, magenta for combining), the record line, then a reset request when
the character is not normal. -/
def stepEvents (w : Nat → Option Nat) (names : Nat → Option String)
    (opts : Options) (count : Nat) (c : Nat) : List Event :=
  (if CharType.of c = CharType.Control then [Event.fg Color.green]
   else if CharType.of c = CharType.Combining then [Event.fg Color.magenta]
   else [])
  ++ [Event.record count c (render_glyph w c) (render_bytes c)
        (if opts.show_names then names c else none)]
  ++ (if CharType.of c ≠ CharType.Normal then [Event.reset] else [])

/-- The loop body of `CharInfo::run` from a given counter value: a decode
error prints an `Error:` line and leaves the counter alone; a character emits
its events and advances the counter. -/
def runFrom (w : Nat → Option Nat) (names : Nat → Option String)
    (opts : Options) : Nat → List (Except String Nat) → List Event
  | _, [] => []
  | count, Except.error e :: rest =>
      Event.error ("Error: " ++ e) :: runFrom w names opts count rest
  | count, Except.ok c :: rest =>
      stepEvents w names opts count c ++ runFrom w names opts (count + inc opts c) rest

/-- `CharInfo::new`'s counter initialisation: 0 when counting bytes, 1 when
counting characters. -/
def initCount (opts : Options) : Nat :=
  if opts.bytes then 0 else 1

/-- `CharInfo::new` followed by `CharInfo::run` over a finite input sequence
of decode outcomes. -/
def run (w : Nat → Option Nat) (names : Nat → Option String)
    (opts : Options) (input : List (Except String Nat)) : List Event :=
  runFrom w names opts (initCount opts) input

/-- The `(ordinal, character)` pairs of the record lines, in emission order. -/
def recordOrds : List Event → List (Nat × Nat)
  | [] => []
  | Event.record n c _ _ _ :: rest => (n, c) :: recordOrds rest
  | _ :: rest => recordOrds rest

/-- A concrete width collaborator reporting every character one column wide,
used to instantiate theorems at concrete inputs. -/
def wOne : Nat → Option Nat := fun _ => some 1

/-- A concrete width collaborator reporting every width as unmeasurable, used
to instantiate theorems at concrete inputs. -/
def wNone : Nat → Option Nat := fun _ => none

/-- A concrete name collaborator knowing no names, used to instantiate
theorems at concrete inputs. -/
def nNone : Nat → Option String := fun _ => none

end Charinfo

namespace Charm

/-- `Flags` from src/options.rs. -/
structure Flags where
  bytes : Bool
  show_names : Bool
  show_scripts : Bool
  show_widths : Bool
deriving DecidableEq

/-- `Options` from src/options.rs. -/
structure Options where
  flags : Flags
  input_file_name : Option String
deriving DecidableEq

/-- `Misfire` from src/options.rs. -/
inductive Misfire where
  | InvalidOptions (e : String)
  | Help (text : String)
  | Version
deriving DecidableEq

/-- `Misfire::exit_status` from src/options.rs: 2 for help, 3 otherwise. -/
def Misfire.exit_status : Misfire → Int
  | Misfire.Help _ => 2
  | _ => 3

/-- The outcome of the external `getopts` crate's `opts.parse`: which flags
were present and the free (positional) arguments, or a parse failure text. -/
structure Matches where
  opt_help : Bool
  opt_version : Bool
  opt_bytes : Bool
  opt_names : Bool
  opt_scripts : Bool
  opt_widths : Bool
  free : List String
deriving DecidableEq

/-- `Options::getopts` from src/options.rs, after the external parse: a parse
failure is an `InvalidOptions` misfire; `--help` and `--version` are their
misfires; zero or one free argument selects the input file, and more than one
free argument returns the usage text as a `Help` misfire. -/
def Options.getopts (usage : String) (parsed : Except String Matches) :
    Except Misfire Options :=
  match parsed with
  | Except.error e => Except.error (Misfire.InvalidOptions e)
  | Except.ok m =>
    if m.opt_help then Except.error (Misfire.Help usage)
    else if m.opt_version then Except.error Misfire.Version
    else match m.free with
      | [] => Except.ok
          ⟨⟨m.opt_bytes, m.opt_names, m.opt_scripts, m.opt_widths⟩, none⟩
      | [f] => Except.ok
          ⟨⟨m.opt_bytes, m.opt_names, m.opt_scripts, m.opt_widths⟩, some f⟩
      | _ => Except.error (Misfire.Help usage)

end Charm

namespace Charinfo

lemma hexVal_hexDigitChar : ∀ n : Nat, n < 16 → hexVal (hexDigitChar n) = some n := by
  decide

lemma hexJoin_cons_cons (b b' : Nat) (bs : List Nat) :
    hexJoin (b :: b' :: bs) = hexByteChars b ++ ' ' :: hexJoin (b' :: bs) := by
  simp [hexJoin, hexByteChars]

lemma parseHexPairs_hexJoin :
    ∀ bs : List Nat, bs ≠ [] → (∀ b ∈ bs, b < 256) →
      parseHexPairs (hexJoin bs) = some bs := by
  intro bs
  induction bs with
  | nil => intro h; exact absurd rfl h
  | cons b rest ih =>
    intro _ hlt
    have hb : b < 256 := hlt b (by simp)
    have hhi := hexVal_hexDigitChar (b / 16) (by omega)
    have hlo := hexVal_hexDigitChar (b % 16) (by omega)
    have hval : 16 * (b / 16) + b % 16 = b := by omega
    cases rest with
    | nil =>
      simp [hexJoin, hexByteChars, parseHexPairs, hhi, hlo, hval]
    | cons b' rest' =>
      rw [hexJoin_cons_cons]
      have hrec := ih (by simp) (fun x hx => hlt x (by simp [hx]))
      simp [hexByteChars, parseHexPairs, hhi, hlo, hval, hrec]

lemma utf8Encode_bytes_lt (c : Nat) (h : c < 0x110000) :
    ∀ b ∈ utf8Encode c, b < 256 := by
  unfold utf8Encode
  split_ifs <;> intro b hb <;> simp at hb <;> omega

lemma utf8Encode_ne_nil (c : Nat) : utf8Encode c ≠ [] := by
  unfold utf8Encode
  split_ifs <;> simp

lemma utf8Decode_utf8Encode (c : Nat) (h : ValidScalar c) :
    utf8Decode (utf8Encode c) = some c := by
  obtain ⟨hlt, hsur⟩ := h
  unfold utf8Encode
  split_ifs with h1 h2 h3
  · simp [utf8Decode, h1]
  · have e1 : 0xC2 ≤ 0xC0 + c / 0x40 := by omega
    have e2 : 0xC0 + c / 0x40 ≤ 0xDF := by omega
    simp only [utf8Decode, isCont]
    have : (0xC0 + c / 0x40 - 0xC0) * 0x40 + (0x80 + c % 0x40 - 0x80) = c := by
      omega
    simp [e1, e2, this]
    omega
  · simp only [utf8Decode, isCont]
    have hv : (0xE0 + c / 0x1000 - 0xE0) * 0x1000 +
        (0x80 + c / 0x40 % 0x40 - 0x80) * 0x40 + (0x80 + c % 0x40 - 0x80) = c := by
      omega
    have g1 : 0xE0 + c / 0x1000 ≤ 0xEF := by omega
    simp [g1, hv]
    omega
  · simp only [utf8Decode, isCont]
    have hv : (0xF0 + c / 0x40000 - 0xF0) * 0x40000 +
        (0x80 + c / 0x1000 % 0x40 - 0x80) * 0x1000 +
        (0x80 + c / 0x40 % 0x40 - 0x80) * 0x40 + (0x80 + c % 0x40 - 0x80) = c := by
      omega
    have g1 : 0xF0 + c / 0x40000 ≤ 0xF4 := by omega
    simp [g1, hv]
    omega

end Charinfo

namespace Charinfo

/-- C1: `CharType.of` is a total deterministic function applying first-match
rules in order — control characters are `Control`; otherwise scalar values in
`[0x300, 0x370)` are `Combining`; otherwise `Normal` — so every valid scalar
value receives exactly one of the three categories. -/
theorem C1_classify_first_match (c : Nat) (h : ValidScalar c) :
    (CharType.of c = CharType.Control ↔ is_control c = true) ∧
    (CharType.of c = CharType.Combining ↔
      (is_control c = false ∧ 0x300 ≤ c ∧ c < 0x370)) ∧
    (CharType.of c = CharType.Normal ↔
      (is_control c = false ∧ ¬(0x300 ≤ c ∧ c < 0x370))) := by
  unfold CharType.of
  split_ifs with h1 h2 <;> simp_all

theorem C1_witness :
    ValidScalar 0x301 ∧
    ((CharType.of 0x301 = CharType.Control ↔ is_control 0x301 = true) ∧
     (CharType.of 0x301 = CharType.Combining ↔
       (is_control 0x301 = false ∧ 0x300 ≤ 0x301 ∧ 0x301 < 0x370)) ∧
     (CharType.of 0x301 = CharType.Normal ↔
       (is_control 0x301 = false ∧ ¬(0x300 ≤ 0x301 ∧ 0x301 < 0x370)))) :=
  ⟨by decide, C1_classify_first_match 0x301 (by decide)⟩

/-- C2: `render_glyph` applies its five rules first-match-wins: scalar values
up to 9 get a `#`-form with a trailing space; 10–31 get a `#`-form without a
trailing space; the combining range gets a space placeholder inside the
quotes; otherwise width exactly 1 gets a leading space before the quoted
character; every other width gets the quoted character with no leading
space. -/
theorem C2_render_glyph_rules (w : Nat → Option Nat) (c : Nat) :
    (c ≤ 9 → render_glyph w c = " #" ++ Nat.repr c ++ " ") ∧
    (10 ≤ c → c ≤ 31 → render_glyph w c = " #" ++ Nat.repr c) ∧
    (0x300 ≤ c → c < 0x370 → render_glyph w c = " ' " ++ charStr c ++ "'") ∧
    (32 ≤ c → ¬(0x300 ≤ c ∧ c < 0x370) → w c = some 1 →
      render_glyph w c = " '" ++ charStr c ++ "'") ∧
    (32 ≤ c → ¬(0x300 ≤ c ∧ c < 0x370) → w c ≠ some 1 →
      render_glyph w c = "'" ++ charStr c ++ "'") := by
  refine ⟨fun h1 => ?_, fun h1 h2 => ?_, fun h1 h2 => ?_,
    fun h1 h2 h3 => ?_, fun h1 h2 h3 => ?_⟩
  · simp [render_glyph, h1]
  · have n9 : ¬ c ≤ 9 := by omega
    simp [render_glyph, n9, h2]
  · have n9 : ¬ c ≤ 9 := by omega
    have n31 : ¬ c ≤ 31 := by omega
    simp [render_glyph, n9, n31, h1, h2]
  · have n9 : ¬ c ≤ 9 := by omega
    have n31 : ¬ c ≤ 31 := by omega
    simp [render_glyph, n9, n31, h2, h3]
  · have n9 : ¬ c ≤ 9 := by omega
    have n31 : ¬ c ≤ 31 := by omega
    simp [render_glyph, n9, n31, h2, h3]

theorem C2_witness :
    render_glyph wOne 7 = " #" ++ Nat.repr 7 ++ " " ∧
    render_glyph wOne 27 = " #" ++ Nat.repr 27 ∧
    render_glyph wOne 0x345 = " ' " ++ charStr 0x345 ++ "'" ∧
    render_glyph wOne 65 = " '" ++ charStr 65 ++ "'" ∧
    render_glyph wNone 65 = "'" ++ charStr 65 ++ "'" :=
  ⟨(C2_render_glyph_rules wOne 7).1 (by decide),
   (C2_render_glyph_rules wOne 27).2.1 (by decide) (by decide),
   (C2_render_glyph_rules wOne 0x345).2.2.1 (by decide) (by decide),
   (C2_render_glyph_rules wOne 65).2.2.2.1 (by decide) (by decide) rfl,
   (C2_render_glyph_rules wNone 65).2.2.2.2 (by decide) (by decide) (by decide)⟩

/-- C6: `render_bytes` round-trips — parsing its space-separated two-digit
lowercase hex pairs recovers exactly the UTF-8 bytes of the character, and
decoding those bytes as UTF-8 recovers the character itself, for every valid
scalar value. -/
theorem C6_render_bytes_roundtrip (c : Nat) (h : ValidScalar c) :
    parseHexPairs (render_bytes c).data = some (utf8Encode c) ∧
    utf8Decode (utf8Encode c) = some c := by
  constructor
  · show parseHexPairs (hexJoin (utf8Encode c)) = some (utf8Encode c)
    exact parseHexPairs_hexJoin (utf8Encode c) (utf8Encode_ne_nil c)
      (utf8Encode_bytes_lt c h.1)
  · exact utf8Decode_utf8Encode c h

theorem C6_witness :
    ValidScalar 0x20AC ∧
    (parseHexPairs (render_bytes 0x20AC).data = some (utf8Encode 0x20AC) ∧
     utf8Decode (utf8Encode 0x20AC) = some 0x20AC) :=
  ⟨by decide, C6_render_bytes_roundtrip 0x20AC (by decide)⟩

end Charinfo

namespace Charinfo

lemma recordOrds_append (a b : List Event) :
    recordOrds (a ++ b) = recordOrds a ++ recordOrds b := by
  induction a with
  | nil => rfl
  | cons e rest ih => cases e <;> simp [recordOrds, ih]

lemma recordOrds_stepEvents (w : Nat → Option Nat) (names : Nat → Option String)
    (opts : Options) (count c : Nat) :
    recordOrds (stepEvents w names opts count c) = [(count, c)] := by
  unfold stepEvents
  split_ifs <;> simp [recordOrds_append, recordOrds]

lemma one_le_inc (opts : Options) (c : Nat) : 1 ≤ inc opts c := by
  unfold inc len_utf8
  split_ifs <;> omega

lemma recordOrds_runFrom_chain (w : Nat → Option Nat)
    (names : Nat → Option String) (opts : Options) :
    ∀ (input : List (Except String Nat)) (count : Nat),
      List.Chain' (fun p q : Nat × Nat => q.1 = p.1 + inc opts p.2)
        (recordOrds (runFrom w names opts count input)) ∧
      ∀ p ∈ (recordOrds (runFrom w names opts count input)).head?, p.1 = count := by
  intro input
  induction input with
  | nil =>
    intro count
    simp [runFrom, recordOrds]
  | cons x rest ih =>
    intro count
    cases x with
    | error e =>
      simpa [runFrom, recordOrds] using ih count
    | ok c =>
      have h := ih (count + inc opts c)
      rw [show runFrom w names opts count (Except.ok c :: rest) =
            stepEvents w names opts count c ++
              runFrom w names opts (count + inc opts c) rest from rfl,
          recordOrds_append, recordOrds_stepEvents]
      refine ⟨List.chain'_cons'.mpr ⟨fun q hq => ?_, h.1⟩, by simp⟩
      simpa using h.2 q hq

/-- C3: the counter starts at 0 when counting bytes and at 1 when counting
characters; each record carries the counter value from before its character
was counted; the counter then advances by the UTF-8 byte length in byte mode
and by exactly 1 otherwise; in particular with the bytes option the inputs
`é` then `x` receive ordinals 0 then 2. -/
theorem C3_counter_policy (w : Nat → Option Nat) (names : Nat → Option String)
    (opts : Options) :
    (opts.bytes = true → initCount opts = 0) ∧
    (opts.bytes = false → initCount opts = 1) ∧
    (∀ count c rest,
      runFrom w names opts count (Except.ok c :: rest) =
        stepEvents w names opts count c ++
          runFrom w names opts
            (count + (if opts.bytes then len_utf8 c else 1)) rest) ∧
    (∀ count c, recordOrds (stepEvents w names opts count c) = [(count, c)]) ∧
    ((recordOrds (run w names ⟨true, false⟩
        [Except.ok 0xE9, Except.ok 0x78])).map Prod.fst = [0, 2]) := by
  refine ⟨fun h => by simp [initCount, h], fun h => by simp [initCount, h],
    fun count c rest => rfl, recordOrds_stepEvents w names opts, ?_⟩
  show (recordOrds (runFrom w names ⟨true, false⟩ (initCount ⟨true, false⟩)
      [Except.ok 0xE9, Except.ok 0x78])).map Prod.fst = [0, 2]
  rw [show runFrom w names ⟨true, false⟩ (initCount ⟨true, false⟩)
        [Except.ok 0xE9, Except.ok 0x78] =
      stepEvents w names ⟨true, false⟩ 0 0xE9 ++
        (stepEvents w names ⟨true, false⟩ 2 0x78 ++ []) from rfl]
  rw [recordOrds_append, recordOrds_stepEvents, recordOrds_append,
    recordOrds_stepEvents]
  rfl

theorem C3_witness :
    initCount ⟨true, false⟩ = 0 ∧ initCount ⟨false, false⟩ = 1 :=
  ⟨(C3_counter_policy wOne nNone ⟨true, false⟩).1 rfl,
   (C3_counter_policy wOne nNone ⟨false, false⟩).2.1 rfl⟩

/-- C4: across any run the emitted ordinals are strictly increasing, and in
byte-count mode each consecutive ordinal difference is exactly the UTF-8 byte
length of the character of the earlier record. -/
theorem C4_ordinals_increasing (w : Nat → Option Nat)
    (names : Nat → Option String) (opts : Options)
    (input : List (Except String Nat)) :
    List.Chain' (fun p q : Nat × Nat => p.1 < q.1)
      (recordOrds (run w names opts input)) ∧
    (opts.bytes = true →
      List.Chain' (fun p q : Nat × Nat => q.1 = p.1 + len_utf8 p.2)
        (recordOrds (run w names opts input))) := by
  have h := (recordOrds_runFrom_chain w names opts input (initCount opts)).1
  constructor
  · refine h.imp fun p q hpq => ?_
    have := one_le_inc opts p.2
    omega
  · intro hb
    refine h.imp fun p q hpq => ?_
    simpa [inc, hb] using hpq

theorem C4_witness :
    List.Chain' (fun p q : Nat × Nat => p.1 < q.1)
      (recordOrds (run wOne nNone ⟨true, false⟩
        [Except.ok 0xE9, Except.error "bad", Except.ok 0x78])) ∧
    List.Chain' (fun p q : Nat × Nat => q.1 = p.1 + len_utf8 p.2)
      (recordOrds (run wOne nNone ⟨true, false⟩
        [Except.ok 0xE9, Except.error "bad", Except.ok 0x78])) :=
  ⟨(C4_ordinals_increasing wOne nNone ⟨true, false⟩
      [Except.ok 0xE9, Except.error "bad", Except.ok 0x78]).1,
   (C4_ordinals_increasing wOne nNone ⟨true, false⟩
      [Except.ok 0xE9, Except.error "bad", Except.ok 0x78]).2 rfl⟩

/-- C5: a decode error makes the driver print exactly one `Error: <msg>` line,
leaves the counter untouched, classifies nothing and emits no styling or
record for that unit, and processing continues with the remaining units from
the same counter value. -/
theorem C5_decode_error_continues (w : Nat → Option Nat)
    (names : Nat → Option String) (opts : Options) (count : Nat)
    (msg : String) (rest : List (Except String Nat)) :
    runFrom w names opts count (Except.error msg :: rest) =
      Event.error ("Error: " ++ msg) :: runFrom w names opts count rest := rfl

/-- C9: a Normal character issues no styling request at all — its events are
exactly its record line — while a Control character issues exactly one green
foreground request before the record and one reset after it, and a Combining
character issues exactly one magenta foreground request before the record and
one reset after it. -/
theorem C9_styling_discipline (w : Nat → Option Nat)
    (names : Nat → Option String) (opts : Options) (count c : Nat) :
    (CharType.of c = CharType.Normal →
      stepEvents w names opts count c =
        [Event.record count c (render_glyph w c) (render_bytes c)
          (if opts.show_names then names c else none)]) ∧
    (CharType.of c = CharType.Control →
      stepEvents w names opts count c =
        [Event.fg Color.green,
         Event.record count c (render_glyph w c) (render_bytes c)
          (if opts.show_names then names c else none),
         Event.reset]) ∧
    (CharType.of c = CharType.Combining →
      stepEvents w names opts count c =
        [Event.fg Color.magenta,
         Event.record count c (render_glyph w c) (render_bytes c)
          (if opts.show_names then names c else none),
         Event.reset]) := by
  refine ⟨fun h => ?_, fun h => ?_, fun h => ?_⟩ <;> simp [stepEvents, h]

theorem C9_witness :
    stepEvents wOne nNone ⟨false, false⟩ 1 65 =
      [Event.record 1 65 (render_glyph wOne 65) (render_bytes 65) none] ∧
    stepEvents wOne nNone ⟨false, false⟩ 1 7 =
      [Event.fg Color.green,
       Event.record 1 7 (render_glyph wOne 7) (render_bytes 7) none,
       Event.reset] ∧
    stepEvents wOne nNone ⟨false, false⟩ 1 0x300 =
      [Event.fg Color.magenta,
       Event.record 1 0x300 (render_glyph wOne 0x300) (render_bytes 0x300) none,
       Event.reset] :=
  ⟨(C9_styling_discipline wOne nNone ⟨false, false⟩ 1 65).1 (by decide),
   (C9_styling_discipline wOne nNone ⟨false, false⟩ 1 7).2.1 (by decide),
   (C9_styling_discipline wOne nNone ⟨false, false⟩ 1 0x300).2.2 (by decide)⟩

end Charinfo

namespace Charinfo

/-- C7 counterexample: on input BEL (codepoint 7) with default options the
program's glyph field is `" #7 "` with a trailing space, so no record with
glyph exactly `" #7"` is emitted. -/
theorem C7_counterexample :
    run wOne nNone ⟨false, false⟩ [Except.ok 7] =
      [Event.fg Color.green, Event.record 1 7 " #7 " "07" none, Event.reset] ∧
    (" #7 " : String) ≠ " #7" :=
  ⟨by decide, by decide⟩

/-- C7 (amended): for the input consisting of the single control character
codepoint 7 (BEL) with default options, the program emits one record with
glyph rendering `" #7 "` (trailing space included), category Control, the
green styling applied before the record and reset after it, and byte
rendering `"07"`. -/
theorem C7_bel_record (w : Nat → Option Nat) (names : Nat → Option String) :
    run w names ⟨false, false⟩ [Except.ok 7] =
      [Event.fg Color.green, Event.record 1 7 " #7 " "07" none, Event.reset] ∧
    CharType.of 7 = CharType.Control :=
  ⟨rfl, rfl⟩

/-- C10: every control character with scalar value 32 or more (DEL and the C1
range) is classified Control, yet its glyph never takes a `#`-numeric form:
it falls through to the width-based quoted renderings. -/
theorem C10_high_controls_quoted (w : Nat → Option Nat) (c : Nat)
    (h32 : 32 ≤ c) (hc : is_control c = true) :
    CharType.of c = CharType.Control ∧
    (w c = some 1 → render_glyph w c = " '" ++ charStr c ++ "'") ∧
    (w c ≠ some 1 → render_glyph w c = "'" ++ charStr c ++ "'") ∧
    (∀ n : Nat, render_glyph w c ≠ " #" ++ Nat.repr n ++ " " ∧
      render_glyph w c ≠ " #" ++ Nat.repr n) := by
  have hcc : c ≤ 0x1F ∨ (0x7F ≤ c ∧ c ≤ 0x9F) := by
    simpa [is_control, Bool.or_eq_true, decide_eq_true_eq] using hc
  have n9 : ¬ c ≤ 9 := by omega
  have n31 : ¬ c ≤ 31 := by omega
  have hn : ¬(0x300 ≤ c ∧ c < 0x370) := by omega
  refine ⟨by simp [CharType.of, hc], fun hw => ?_, fun hw => ?_, fun n => ?_⟩
  · simp [render_glyph, n9, n31, hn, hw]
  · simp [render_glyph, n9, n31, hn, hw]
  · rw [render_glyph, if_neg n9, if_neg n31, if_neg hn]
    split_ifs with hw
    · constructor <;> intro heq <;>
        · have h2 := congrArg String.data heq
          simp [String.data_append, charStr, String.singleton] at h2
    · constructor <;> intro heq <;>
        · have h2 := congrArg String.data heq
          simp [String.data_append, charStr, String.singleton] at h2

theorem C10_witness :
    CharType.of 0x7F = CharType.Control ∧
    (wNone 0x7F = some 1 → render_glyph wNone 0x7F = " '" ++ charStr 0x7F ++ "'") ∧
    (wNone 0x7F ≠ some 1 → render_glyph wNone 0x7F = "'" ++ charStr 0x7F ++ "'") ∧
    (∀ n : Nat, render_glyph wNone 0x7F ≠ " #" ++ Nat.repr n ++ " " ∧
      render_glyph wNone 0x7F ≠ " #" ++ Nat.repr n) :=
  C10_high_controls_quoted wNone 0x7F (by decide) (by decide)

end Charinfo

namespace Charm

/-- C8 counterexample: two positional file arguments produce the `Help`
misfire, whose exit status is 2, not 3 as claimed. -/
theorem C8_counterexample :
    Options.getopts "usage"
      (Except.ok ⟨false, false, false, false, false, false, ["a", "b"]⟩) =
      Except.error (Misfire.Help "usage") ∧
    (Misfire.Help "usage").exit_status = 2 ∧ ((2 : Int) ≠ 3) :=
  ⟨rfl, rfl, by decide⟩

/-- C8 (amended): a help request exits with code 2; an option-parse failure or
a version display exits with code 3; supplying two or more positional file
arguments makes startup fail before reading input with the usage `Help`
misfire, hence with exit code 2, not 3. -/
theorem C8_exit_codes (usage e : String) (m : Matches) :
    (Misfire.Help usage).exit_status = 2 ∧
    (Misfire.InvalidOptions e).exit_status = 3 ∧
    Misfire.Version.exit_status = 3 ∧
    Options.getopts usage (Except.error e) =
      Except.error (Misfire.InvalidOptions e) ∧
    (m.opt_help = true →
      Options.getopts usage (Except.ok m) =
        Except.error (Misfire.Help usage)) ∧
    (m.opt_help = false → m.opt_version = true →
      Options.getopts usage (Except.ok m) = Except.error Misfire.Version) ∧
    (m.opt_help = false → m.opt_version = false → 2 ≤ m.free.length →
      Options.getopts usage (Except.ok m) =
        Except.error (Misfire.Help usage) ∧
      (Misfire.Help usage).exit_status = 2) := by
  refine ⟨rfl, rfl, rfl, rfl, fun hh => ?_, fun hh hv => ?_, fun hh hv hlen => ?_⟩
  · simp [Options.getopts, hh]
  · simp [Options.getopts, hh, hv]
  · obtain ⟨f, g, rest, hfree⟩ : ∃ f g rest, m.free = f :: g :: rest := by
      cases hts : m.free with
      | nil => rw [hts] at hlen; simp at hlen
      | cons f t =>
        cases t with
        | nil => rw [hts] at hlen; simp at hlen
        | cons g rest => exact ⟨f, g, rest, rfl⟩
    exact ⟨by simp [Options.getopts, hh, hv, hfree], rfl⟩

theorem C8_witness :
    Options.getopts "u"
      (Except.ok ⟨true, false, false, false, false, false, []⟩) =
      Except.error (Misfire.Help "u") ∧
    Options.getopts "u"
      (Except.ok ⟨false, true, false, false, false, false, []⟩) =
      Except.error Misfire.Version ∧
    (Options.getopts "u"
      (Except.ok ⟨false, false, false, false, false, false, ["f", "g"]⟩) =
      Except.error (Misfire.Help "u") ∧
     (Misfire.Help "u").exit_status = 2) :=
  ⟨(C8_exit_codes "u" "e" ⟨true, false, false, false, false, false, []⟩).2.2.2.2.1 rfl,
   (C8_exit_codes "u" "e" ⟨false, true, false, false, false, false, []⟩).2.2.2.2.2.1 rfl rfl,
   (C8_exit_codes "u" "e"
     ⟨false, false, false, false, false, false, ["f", "g"]⟩).2.2.2.2.2.2 rfl rfl
     (by decide)⟩

end Charm
